import Mathlib

/-!
Shallow embedding of `src/too_good_to_go/search_interval.py`.

Timestamps (seconds since the Unix epoch) are modelled as rationals `ℚ`:
every arithmetic operation the code performs on them (adding or
subtracting integer numbers of seconds, comparisons, exact equality) is
exact on IEEE doubles in the magnitudes involved, so `ℚ` is a faithful
carrier.

A timezone is modelled by two offset functions, matching the two distinct
ways the Python code consults a zone:
* `offsetAtInstant t` — the zone's UTC offset (in seconds) in effect at
  the absolute instant `t`; this is what `datetime.datetime.fromtimestamp`
  uses (for the *process-local* zone) to turn an epoch timestamp into a
  naive wall-clock datetime;
* `offsetAtLocal w` — the UTC offset that `pytz`'s `localize` attaches to
  a *naive* wall-clock datetime `w` (with its default disambiguation at a
  fold/gap).

A naive datetime is represented by its "local epoch" value `w`: the number
of seconds between the wall-clock fields it shows and
1970-01-01 00:00:00 of the same calendar.  Replacing the
hour/minute/second/microsecond fields of `w` by `(H, 0, 0, 0)` is then
`floorDay w + H * 3600`, and `.timestamp()` of an aware datetime whose
naive fields are `w` with attached offset `off` is `w - off`.

`datetime.datetime.fromtimestamp(t)` uses the timezone of the running
process, which is *not* an argument of the Python functions; it is made
explicit here as the extra parameter `sys`.
-/

/-- A timezone, reduced to the two offset queries the Python code makes. -/
structure TimeZoneModel where
  offsetAtInstant : ℚ → ℚ
  offsetAtLocal : ℚ → ℚ

/-- Source constant `INTERVALS = [1, 2, 3, 4, 6, 8, 12, 24]`. -/
def INTERVALS : List ℤ := [1, 2, 3, 4, 6, 8, 12, 24]

/-- Source constant `LOOKBACK_DAYS = 1`. -/
def LOOKBACK_DAYS : ℤ := 1

/-- Source constant `SECONDS_PER_DAY = 60 * 60 * 24`. -/
def SECONDS_PER_DAY : ℚ := 60 * 60 * 24

/-- Source constant `SECONDS_PER_HOUR = 60 * 60`. -/
def SECONDS_PER_HOUR : ℚ := 60 * 60

/-- Source constant `SECONDS_PER_MINUTE = 60`. -/
def SECONDS_PER_MINUTE : ℚ := 60

/-- Start of the calendar day of a naive datetime `w` (local epoch
seconds), i.e. `w` with hour/minute/second/microsecond zeroed. -/
def floorDay (w : ℚ) : ℚ := (⌊w / SECONDS_PER_DAY⌋ : ℤ) * SECONDS_PER_DAY

/-- Loop body of `get_start_of_last_interval`: walks the boundary list
carrying the element index `idx` and the previous element `prev`
(`prev = interval_times[idx - 1]` whenever `idx ≥ 1`).  Mirrors, in order,
the four branches of the Python `for` loop:
`if t < now: continue`, `if t == now: return t`,
`if i == 0: continue`, `return interval_times[i-1]`;
falling off the end of the list yields `none`. -/
def goFind (now : ℚ) : Option ℚ → ℕ → List ℚ → Option ℚ
  | _, _, [] => none
  | prev, idx, t :: rest =>
    if t < now then goFind now (some t) (idx + 1) rest
    else if t = now then some t
    else if idx = 0 then goFind now (some t) (idx + 1) rest
    else prev

/-- Embedding of `get_start_of_last_interval(interval_times, now_uclock)`:
the singleton special case returns the sole element unconditionally;
otherwise the loop `goFind` runs from index 0 (so Python's
`return None` when the loop never breaks is the `[]` case of `goFind`). -/
def get_start_of_last_interval (interval_times : List ℚ) (now_uclock : ℚ) : Option ℚ :=
  match interval_times with
  | [t] => some t
  | ts => goFind now_uclock none 0 ts

/-- Embedding of `get_localized_start_time(now_uclock, start_hour, time_zone)`.
Python steps, in order:
`now = datetime.datetime.fromtimestamp(now_uclock)` (process zone `sys`),
`now = time_zone.localize(now)` (attaches `tz.offsetAtLocal` of the naive
value), `start_time = now.replace(hour=start_hour, minute=0, second=0,
microsecond=0)` (keeps the date and the attached offset),
`start_time.timestamp()`. -/
def get_localized_start_time (sys tz : TimeZoneModel) (now_uclock : ℚ) (start_hour : ℤ) : ℚ :=
  let now_local : ℚ := now_uclock + sys.offsetAtInstant now_uclock
  let off : ℚ := tz.offsetAtLocal now_local
  let start_local : ℚ := floorDay now_local + (start_hour : ℚ) * SECONDS_PER_HOUR
  start_local - off

/-- The value `range_value = max((lookback_days + 1) * num_intervals, 2)`
computed inside `is_time_to_search`, with `lookback_days = LOOKBACK_DAYS`
and `num_intervals = 24 // interval_hour` (Python floor division). -/
def range_value_of (interval_hour : ℤ) : ℕ :=
  (max ((LOOKBACK_DAYS + 1) * Int.fdiv 24 interval_hour) 2).toNat

/-- The boundary list built inside `is_time_to_search`:
`interval_times = [yesterday_start_time + i * SECONDS_PER_HOUR * interval_hour
for i in range(range_value)]` where
`yesterday_start_time = get_localized_start_time(...) - SECONDS_PER_DAY * lookback_days`. -/
def interval_times_of (sys tz : TimeZoneModel) (now_uclock : ℚ) (start_hour interval_hour : ℤ) :
    List ℚ :=
  (List.range (range_value_of interval_hour)).map
    (fun (i : ℕ) =>
      (get_localized_start_time sys tz now_uclock start_hour -
          SECONDS_PER_DAY * (LOOKBACK_DAYS : ℚ)) +
        (i : ℚ) * SECONDS_PER_HOUR * (interval_hour : ℚ))

/-- Embedding of
`is_time_to_search(now_uclock, start_hour, interval_hour, last_search_time, time_zone)`.
Branch order as in the source: the `interval_hour not in INTERVALS` guard
returns `False` first; the boundary list is then built; the
`last_search_time > now_uclock` guard returns `False`; a `None` result
from `get_start_of_last_interval` returns `True`; otherwise the result is
`False` iff `last_search_time >= start_of_last_interval`. -/
def is_time_to_search (sys tz : TimeZoneModel) (now_uclock : ℚ) (start_hour interval_hour : ℤ)
    (last_search_time : ℚ) : Bool :=
  if interval_hour ∈ INTERVALS then
    if last_search_time > now_uclock then false
    else
      match get_start_of_last_interval
          (interval_times_of sys tz now_uclock start_hour interval_hour) now_uclock with
      | none => true
      | some b => decide (last_search_time < b)
  else false

/-- A timezone with a single constant UTC offset, for concrete scenarios. -/
def constZone (c : ℚ) : TimeZoneModel := ⟨fun _ => c, fun _ => c⟩

/-- The specification's `find_last_boundary_at_or_before` described
mathematically: the rightmost boundary not exceeding `now` (the last
element, in list order, among those `≤ now`).  This is the reference
point against which `get_start_of_last_interval` is compared. -/
def rightmost_boundary_le (ts : List ℚ) (now : ℚ) : Option ℚ :=
  (ts.filter fun b => decide (b ≤ now)).getLast?

/-- The local wall-clock reading of an absolute instant `t` in zone `tz`,
expressed in local epoch seconds. -/
def local_wall_clock (tz : TimeZoneModel) (t : ℚ) : ℚ := t + tz.offsetAtInstant t

/-- Seconds since local midnight of a naive datetime `w`. -/
def time_of_day (w : ℚ) : ℚ := w - floorDay w

/-- The specification's description (section 4.1) of `localize_start_of_day`,
taken at its words: convert `now` to local wall-clock time in `time_zone`,
replace hour/minute/second with `(start_hour, 0, 0)`, and convert the
resulting local time back to an absolute instant using the zone's offset
for that local time.  Stated for comparison with the source's
`get_localized_start_time`, which instead reads the wall clock of the
process zone. -/
def localize_start_of_day_spec (tz : TimeZoneModel) (now : ℚ) (start_hour : ℤ) : ℚ :=
  let w : ℚ := now + tz.offsetAtInstant now
  let start_local : ℚ := floorDay w + (start_hour : ℚ) * SECONDS_PER_HOUR
  start_local - tz.offsetAtLocal start_local

/-- America/New_York around the DST fall-back of 2023-11-05: the UTC
offset drops from -4h (EDT) to -5h (EST) at the absolute instant
1699164000 (06:00 UTC); a naive local datetime is resolved to EDT before
local 01:00 of that day (local epoch 1699146000) and to EST from then on
(pytz `localize` with its default resolves the ambiguous hour to standard
time). -/
def nyFall : TimeZoneModel :=
  { offsetAtInstant := fun t => if t < 1699164000 then -4 * SECONDS_PER_HOUR else -5 * SECONDS_PER_HOUR
    offsetAtLocal := fun w => if w < 1699146000 then -4 * SECONDS_PER_HOUR else -5 * SECONDS_PER_HOUR }

/-! ### Lemmas about the loop of `get_start_of_last_interval` -/

theorem option_or_some (o : Option ℚ) (a : ℚ) : o.or (some a) = some (o.getD a) := by
  cases o <;> rfl

theorem goFind_cons (now : ℚ) (prev : Option ℚ) (idx : ℕ) (t : ℚ) (rest : List ℚ) :
    goFind now prev idx (t :: rest) =
      if t < now then goFind now (some t) (idx + 1) rest
      else if t = now then some t
      else if idx = 0 then goFind now (some t) (idx + 1) rest
      else prev := rfl

theorem goFind_eq_none (now : ℚ) (ts : List ℚ) (h : ∀ t ∈ ts, t < now) :
    ∀ (prev : Option ℚ) (idx : ℕ), goFind now prev idx ts = none := by
  induction ts with
  | nil => intro prev idx; rfl
  | cons t rest ih =>
    intro prev idx
    have ht : t < now := h t (by simp)
    rw [goFind_cons, if_pos ht]
    exact ih (fun x hx => h x (by simp [hx])) _ _

theorem goFind_eq_of_sorted (now : ℚ) (ts : List ℚ) (hs : ts.Pairwise (· < ·)) :
    ∀ (prev : Option ℚ) (idx : ℕ), idx ≠ 0 →
      goFind now prev idx ts =
        if ∀ t ∈ ts, t < now then none
        else ((ts.filter fun b => decide (b ≤ now)).getLast?).or prev := by
  induction ts with
  | nil => intro prev idx _; simp [goFind]
  | cons t rest ih =>
    intro prev idx hidx
    obtain ⟨hhead, hrest⟩ := List.pairwise_cons.mp hs
    by_cases h1 : t < now
    · have hstep : goFind now prev idx (t :: rest) = goFind now (some t) (idx + 1) rest := by
        rw [goFind_cons, if_pos h1]
      rw [hstep, ih hrest (some t) (idx + 1) (by simp)]
      have hcond : (∀ x ∈ t :: rest, x < now) ↔ ∀ x ∈ rest, x < now := by
        simp [h1]
      have hfil : (t :: rest).filter (fun b => decide (b ≤ now)) =
          t :: rest.filter (fun b => decide (b ≤ now)) := by
        simp [List.filter_cons, le_of_lt h1]
      by_cases hall : ∀ x ∈ rest, x < now
      · rw [if_pos hall, if_pos (hcond.mpr hall)]
      · rw [if_neg hall, if_neg (fun hc => hall (hcond.mp hc)), hfil, List.getLast?_cons,
          option_or_some, Option.or_some]
    · by_cases h2 : t = now
      · have hstep : goFind now prev idx (t :: rest) = some t := by
          rw [goFind_cons, if_neg h1, if_pos h2]
        have hfilrest : rest.filter (fun b => decide (b ≤ now)) = [] := by
          refine List.filter_eq_nil_iff.mpr ?_
          intro x hx
          have : now < x := h2 ▸ hhead x hx
          simp [not_le.mpr this]
        have hcond : ¬ ∀ x ∈ t :: rest, x < now := by
          intro hc
          exact absurd (hc t (by simp)) (by simp [h2])
        rw [hstep, if_neg hcond]
        simp [List.filter_cons, h2, hfilrest]
      · have h3 : now < t := lt_of_le_of_ne (not_lt.mp h1) (fun he => h2 he.symm)
        have hstep : goFind now prev idx (t :: rest) = prev := by
          rw [goFind_cons, if_neg h1, if_neg h2, if_neg hidx]
        have hfil : (t :: rest).filter (fun b => decide (b ≤ now)) = [] := by
          refine List.filter_eq_nil_iff.mpr ?_
          intro x hx
          rcases List.mem_cons.mp hx with hx | hx
          · simp [hx, not_le.mpr h3]
          · simp [not_le.mpr (h3.trans (hhead x hx))]
        have hcond : ¬ ∀ x ∈ t :: rest, x < now := by
          intro hc
          exact absurd (hc t (by simp)) (not_lt.mpr (le_of_lt h3))
        rw [hstep, if_neg hcond, hfil]
        rfl

theorem get_start_eq_of_sorted (now : ℚ) (ts : List ℚ) (hs : ts.Pairwise (· < ·))
    (hlen : 2 ≤ ts.length) :
    get_start_of_last_interval ts now =
      if ∀ t ∈ ts, t < now then none
      else ((ts.filter fun b => decide (b ≤ now)).getLast?).or ts.head? := by
  match ts, hlen with
  | a :: b :: l, _ =>
    obtain ⟨hhead, hrest⟩ := List.pairwise_cons.mp hs
    have hstart : get_start_of_last_interval (a :: b :: l) now = goFind now none 0 (a :: b :: l) := rfl
    by_cases h2 : a = now
    · have h1 : ¬ a < now := by simp [h2]
      have hstep : goFind now none 0 (a :: b :: l) = some a := by
        rw [goFind_cons, if_neg h1, if_pos h2]
      have hfilrest : (b :: l).filter (fun b => decide (b ≤ now)) = [] := by
        refine List.filter_eq_nil_iff.mpr ?_
        intro x hx
        have : now < x := h2 ▸ hhead x hx
        simp [not_le.mpr this]
      have hcond : ¬ ∀ x ∈ a :: b :: l, x < now := by
        intro hc
        exact absurd (hc a (by simp)) (by simp [h2])
      rw [hstart, hstep, if_neg hcond]
      simp [List.filter_cons, h2, hfilrest]
    · have hstep : goFind now none 0 (a :: b :: l) = goFind now (some a) (0 + 1) (b :: l) := by
        by_cases h1 : a < now
        · rw [goFind_cons, if_pos h1]
        · rw [goFind_cons, if_neg h1, if_neg h2, if_pos rfl]
      rw [hstart, hstep, goFind_eq_of_sorted now (b :: l) hrest (some a) (0 + 1) (by norm_num)]
      by_cases h1 : a < now
      · have hcond : (∀ x ∈ a :: b :: l, x < now) ↔ ∀ x ∈ b :: l, x < now := by
          simp [h1]
        have hfil : (a :: b :: l).filter (fun b => decide (b ≤ now)) =
            a :: (b :: l).filter (fun b => decide (b ≤ now)) := by
          simp [List.filter_cons, le_of_lt h1]
        by_cases hall : ∀ x ∈ b :: l, x < now
        · rw [if_pos hall, if_pos (hcond.mpr hall)]
        · rw [if_neg hall, if_neg (fun hc => hall (hcond.mp hc)), hfil, List.getLast?_cons,
            List.head?_cons, option_or_some, Option.or_some]
      · have h3 : now < a := lt_of_le_of_ne (not_lt.mp h1) (fun he => h2 he.symm)
        have hallrest : ¬ ∀ x ∈ b :: l, x < now := by
          intro hc
          exact absurd (hc b (by simp)) (not_lt.mpr (le_of_lt (h3.trans (hhead b (by simp)))))
        have hfilrest : (b :: l).filter (fun b => decide (b ≤ now)) = [] := by
          refine List.filter_eq_nil_iff.mpr ?_
          intro x hx
          simp [not_le.mpr (h3.trans (hhead x hx))]
        have hcond : ¬ ∀ x ∈ a :: b :: l, x < now := by
          intro hc
          exact absurd (hc a (by simp)) (not_lt.mpr (le_of_lt h3))
        have hfil : (a :: b :: l).filter (fun b => decide (b ≤ now)) = [] := by
          refine List.filter_eq_nil_iff.mpr ?_
          intro x hx
          rcases List.mem_cons.mp hx with hx | hx
          · simp [hx, not_le.mpr h3]
          · simp [not_le.mpr (h3.trans (hhead x hx))]
        rw [if_neg hallrest, if_neg hcond, hfilrest, hfil]
        rfl

/-! ### Lemmas about the generated boundary list -/

theorem interval_pos {i : ℤ} (hi : i ∈ INTERVALS) : 0 < i := by
  fin_cases hi <;> norm_num

theorem range_value_two_le (i : ℤ) : 2 ≤ range_value_of i := by
  unfold range_value_of
  have h : (2 : ℤ) ≤ max ((LOOKBACK_DAYS + 1) * Int.fdiv 24 i) 2 := le_max_right _ _
  omega

theorem range_value_eval (i : ℤ) (hi : i ∈ INTERVALS) :
    (((range_value_of i : ℕ) : ℚ) - 1) * (i : ℚ) = 48 - (i : ℚ) := by
  fin_cases hi <;>
    norm_num [show range_value_of 1 = 48 from by decide, show range_value_of 2 = 24 from by decide,
      show range_value_of 3 = 16 from by decide, show range_value_of 4 = 12 from by decide,
      show range_value_of 6 = 8 from by decide, show range_value_of 8 = 6 from by decide,
      show range_value_of 12 = 4 from by decide, show range_value_of 24 = 2 from by decide]

theorem interval_times_length (sys tz : TimeZoneModel) (now : ℚ) (s i : ℤ) :
    (interval_times_of sys tz now s i).length = range_value_of i := by
  simp only [interval_times_of, List.length_map, List.length_range]

theorem interval_times_mem {sys tz : TimeZoneModel} {now : ℚ} {s i : ℤ} {t : ℚ} :
    t ∈ interval_times_of sys tz now s i ↔
      ∃ k : ℕ, k < range_value_of i ∧
        t = (get_localized_start_time sys tz now s - SECONDS_PER_DAY * (LOOKBACK_DAYS : ℚ)) +
            (k : ℚ) * SECONDS_PER_HOUR * (i : ℚ) := by
  simp only [interval_times_of, List.mem_map, List.mem_range]
  constructor
  · rintro ⟨k, hk, hfk⟩
    exact ⟨k, hk, hfk.symm⟩
  · rintro ⟨k, hk, hfk⟩
    exact ⟨k, hk, hfk.symm⟩

theorem interval_times_sorted (sys tz : TimeZoneModel) (now : ℚ) (s : ℤ) {i : ℤ} (hpos : 0 < i) :
    (interval_times_of sys tz now s i).Pairwise (· < ·) := by
  simp only [interval_times_of]
  refine List.pairwise_map.mpr (List.Pairwise.imp ?_ (List.pairwise_lt_range _))
  intro a b hab
  have hi : (0 : ℚ) < (i : ℚ) := by exact_mod_cast hpos
  have hc : (a : ℚ) < (b : ℚ) := by exact_mod_cast hab
  have h3 : (0 : ℚ) < SECONDS_PER_HOUR := by norm_num [SECONDS_PER_HOUR]
  exact add_lt_add_left (mul_lt_mul_of_pos_right (mul_lt_mul_of_pos_right hc h3) hi) _

theorem interval_times_max (sys tz : TimeZoneModel) (now : ℚ) (s : ℤ) {i : ℤ}
    (hi : i ∈ INTERVALS) :
    (get_localized_start_time sys tz now s + (24 - (i : ℚ)) * SECONDS_PER_HOUR)
        ∈ interval_times_of sys tz now s i ∧
      ∀ t ∈ interval_times_of sys tz now s i,
        t ≤ get_localized_start_time sys tz now s + (24 - (i : ℚ)) * SECONDS_PER_HOUR := by
  have hmul := range_value_eval i hi
  have h2 := range_value_two_le i
  have heq : (get_localized_start_time sys tz now s - SECONDS_PER_DAY * (LOOKBACK_DAYS : ℚ)) +
      (((range_value_of i : ℕ) : ℚ) - 1) * SECONDS_PER_HOUR * (i : ℚ) =
      get_localized_start_time sys tz now s + (24 - (i : ℚ)) * SECONDS_PER_HOUR := by
    simp only [SECONDS_PER_HOUR, SECONDS_PER_DAY, LOOKBACK_DAYS, Int.cast_one]
    linear_combination (60 * 60 : ℚ) * hmul
  have hcast : ((range_value_of i - 1 : ℕ) : ℚ) = ((range_value_of i : ℕ) : ℚ) - 1 := by
    have h1 : 1 ≤ range_value_of i := by omega
    push_cast [Nat.cast_sub h1]
    ring
  constructor
  · refine interval_times_mem.mpr ⟨range_value_of i - 1, by omega, ?_⟩
    rw [hcast, heq]
  · intro t ht
    obtain ⟨k, hk, rfl⟩ := interval_times_mem.mp ht
    rw [← heq]
    have hk' : (k : ℚ) ≤ ((range_value_of i : ℕ) : ℚ) - 1 := by
      have hk1 : (k : ℚ) + 1 ≤ ((range_value_of i : ℕ) : ℚ) := by exact_mod_cast hk
      linarith
    have hipos : (0 : ℚ) ≤ (i : ℚ) := by
      have := interval_pos hi
      exact_mod_cast le_of_lt this
    have h3 : (0 : ℚ) ≤ SECONDS_PER_HOUR := by norm_num [SECONDS_PER_HOUR]
    exact add_le_add_left
      (mul_le_mul_of_nonneg_right (mul_le_mul_of_nonneg_right hk' h3) hipos) _

theorem all_lt_iff_past_last (sys tz : TimeZoneModel) (now : ℚ) (s : ℤ) {i : ℤ}
    (hi : i ∈ INTERVALS) :
    (∀ t ∈ interval_times_of sys tz now s i, t < now) ↔
      get_localized_start_time sys tz now s + (24 - (i : ℚ)) * SECONDS_PER_HOUR < now := by
  obtain ⟨hmem, hub⟩ := interval_times_max sys tz now s hi
  constructor
  · intro h
    exact h _ hmem
  · intro h t ht
    exact lt_of_le_of_lt (hub t ht) h

theorem get_start_eq_none_of_all_lt {ts : List ℚ} {now : ℚ} (h : ∀ t ∈ ts, t < now)
    (hlen : ts.length ≠ 1) : get_start_of_last_interval ts now = none := by
  match ts, hlen with
  | [], _ => rfl
  | [a], h1 => exact absurd rfl h1
  | a :: b :: l, _ => exact goFind_eq_none now (a :: b :: l) h none 0

/-! ### Unfolding lemmas for `is_time_to_search` -/

theorem is_time_to_search_of_invalid {sys tz : TimeZoneModel} {now : ℚ} {s i : ℤ} {last : ℚ}
    (hi : i ∉ INTERVALS) : is_time_to_search sys tz now s i last = false := by
  unfold is_time_to_search
  rw [if_neg hi]

theorem is_time_to_search_of_future {sys tz : TimeZoneModel} {now : ℚ} {s i : ℤ} {last : ℚ}
    (hi : i ∈ INTERVALS) (h : now < last) : is_time_to_search sys tz now s i last = false := by
  unfold is_time_to_search
  rw [if_pos hi, if_pos h]

theorem is_time_to_search_of_none {sys tz : TimeZoneModel} {now : ℚ} {s i : ℤ} {last : ℚ}
    (hi : i ∈ INTERVALS) (hl : last ≤ now)
    (hn : get_start_of_last_interval (interval_times_of sys tz now s i) now = none) :
    is_time_to_search sys tz now s i last = true := by
  unfold is_time_to_search
  rw [if_pos hi, if_neg (not_lt.mpr hl), hn]

theorem is_time_to_search_of_some {sys tz : TimeZoneModel} {now : ℚ} {s i : ℤ} {last : ℚ} {b : ℚ}
    (hi : i ∈ INTERVALS) (hl : last ≤ now)
    (hb : get_start_of_last_interval (interval_times_of sys tz now s i) now = some b) :
    is_time_to_search sys tz now s i last = decide (last < b) := by
  unfold is_time_to_search
  rw [if_pos hi, if_neg (not_lt.mpr hl), hb]

/-! ### Concrete scenario evaluations -/

theorem utc_times_46800 :
    interval_times_of (constZone 0) (constZone 0) 46800 0 12 = [-86400, -43200, 0, 43200] := by
  have h4 : range_value_of 12 = 4 := rfl
  simp only [interval_times_of, get_localized_start_time, constZone, h4]
  norm_num [floorDay, SECONDS_PER_DAY, SECONDS_PER_HOUR, LOOKBACK_DAYS,
    List.range_succ, List.range_zero]

theorem utc_times_3600 :
    interval_times_of (constZone 0) (constZone 0) 3600 0 12 = [-86400, -43200, 0, 43200] := by
  have h4 : range_value_of 12 = 4 := rfl
  simp only [interval_times_of, get_localized_start_time, constZone, h4]
  norm_num [floorDay, SECONDS_PER_DAY, SECONDS_PER_HOUR, LOOKBACK_DAYS,
    List.range_succ, List.range_zero]

/-! ### The claims -/

/-- C2 counterexample: for the ascending two-boundary sequence `[1, 2]` and
`now = 0`, `now` is strictly before every boundary, yet
`get_start_of_last_interval` returns the first boundary `some 1`, not
`none` as the claim states (the loop's `i == 0` branch falls through to
the next iteration, which returns `interval_times[0]`). -/
theorem c2_counterexample :
    get_start_of_last_interval [(1 : ℚ), 2] 0 = some 1 ∧ (0 : ℚ) < 1 ∧ (0 : ℚ) < 2 := by
  decide

/-- C2 (amended): for every strictly ascending boundary sequence of length
at least two: when some boundary is at or before `now` and some boundary is
at or after `now`, the function returns the rightmost boundary not
exceeding `now` (so a boundary equal to `now` is itself returned); when
`now` is strictly before every boundary it returns the *first* boundary
(not none); and it returns none exactly when `now` is strictly *after*
every boundary. -/
theorem c2_amended (ts : List ℚ) (now : ℚ) (hs : ts.Pairwise (· < ·)) (hlen : 2 ≤ ts.length) :
    ((∃ t ∈ ts, t ≤ now) → (∃ t ∈ ts, now ≤ t) →
        get_start_of_last_interval ts now = rightmost_boundary_le ts now) ∧
    ((∀ t ∈ ts, now < t) → get_start_of_last_interval ts now = ts.head?) ∧
    (get_start_of_last_interval ts now = none ↔ ∀ t ∈ ts, t < now) := by
  have hgs := get_start_eq_of_sorted now ts hs hlen
  have hne : ts ≠ [] := by
    intro h
    rw [h] at hlen
    simp at hlen
  refine ⟨?_, ?_, ?_⟩
  · intro hbe haf
    have hnall : ¬ ∀ t ∈ ts, t < now := by
      obtain ⟨t, ht, h2⟩ := haf
      exact fun h => absurd (h t ht) (not_lt.mpr h2)
    rw [hgs, if_neg hnall, rightmost_boundary_le]
    obtain ⟨t0, ht0, hle⟩ := hbe
    have hmem : t0 ∈ ts.filter fun b => decide (b ≤ now) :=
      List.mem_filter.mpr ⟨ht0, by simp [hle]⟩
    obtain ⟨b, hb⟩ :=
      Option.isSome_iff_exists.mp (List.getLast?_isSome.mpr (List.ne_nil_of_mem hmem))
    rw [hb, Option.or_some]
  · intro hall
    have hnall : ¬ ∀ t ∈ ts, t < now := by
      obtain ⟨t, ht⟩ := List.exists_mem_of_ne_nil ts hne
      exact fun h => absurd (h t ht) (not_lt.mpr (le_of_lt (hall t ht)))
    have hfil : ts.filter (fun b => decide (b ≤ now)) = [] :=
      List.filter_eq_nil_iff.mpr fun x hx => by simp [not_le.mpr (hall x hx)]
    rw [hgs, if_neg hnall, hfil]
    simp
  · constructor
    · intro h
      by_contra hnall
      rw [hgs, if_neg hnall] at h
      match ts, hne, h with
      | a :: l, _, h => rw [List.head?_cons, option_or_some] at h; exact Option.noConfusion h
    · intro h
      rw [hgs, if_pos h]

/-- C2 witness: the amended statement applied to the concrete ascending
sequence `[1, 2]` with `now = 1`. -/
theorem c2_amended_witness :
    ((∃ t ∈ [(1 : ℚ), 2], t ≤ 1) → (∃ t ∈ [(1 : ℚ), 2], (1 : ℚ) ≤ t) →
        get_start_of_last_interval [(1 : ℚ), 2] 1 = rightmost_boundary_le [(1 : ℚ), 2] 1) ∧
    ((∀ t ∈ [(1 : ℚ), 2], (1 : ℚ) < t) → get_start_of_last_interval [(1 : ℚ), 2] 1 = [(1 : ℚ), 2].head?) ∧
    (get_start_of_last_interval [(1 : ℚ), 2] 1 = none ↔ ∀ t ∈ [(1 : ℚ), 2], t < 1) :=
  c2_amended [(1 : ℚ), 2] 1 (by decide) (by decide)

/-- C1 counterexample: timezone with offset 0, `start_hour = 0`,
`interval_hour = 12`, `now = 46800` (13:00 local), `last_run = 45000`
(12:30 local).  The rightmost generated boundary at or before `now` is
`43200` (12:00 local) and `last_run` lies inside the open bucket
`[43200, 43200 + 12h)`, so the claim requires "not due"; but `now` is past
*every* generated boundary, `get_start_of_last_interval` returns none, and
`is_time_to_search` returns due. -/
theorem c1_counterexample :
    (12 : ℤ) ∈ INTERVALS ∧
    (45000 : ℚ) ≤ 46800 ∧
    rightmost_boundary_le (interval_times_of (constZone 0) (constZone 0) 46800 0 12) 46800 =
      some 43200 ∧
    (43200 : ℚ) ≤ 45000 ∧
    (45000 : ℚ) < 43200 + (12 : ℚ) * SECONDS_PER_HOUR ∧
    is_time_to_search (constZone 0) (constZone 0) 46800 0 12 45000 = true := by
  have hall : ∀ t ∈ interval_times_of (constZone 0) (constZone 0) 46800 0 12, t < 46800 := by
    rw [utc_times_46800]
    intro t ht
    fin_cases ht <;> norm_num
  have hlen1 : (interval_times_of (constZone 0) (constZone 0) 46800 0 12).length ≠ 1 := by
    rw [interval_times_length]
    decide
  refine ⟨by decide, by norm_num, ?_, by norm_num, by norm_num [SECONDS_PER_HOUR], ?_⟩
  · rw [rightmost_boundary_le, utc_times_46800]
    decide
  · exact is_time_to_search_of_none (by decide) (by norm_num)
      (get_start_eq_none_of_all_lt hall hlen1)

/-- C1 (amended): for a valid interval and `last_run ≤ now`, *provided
`now` does not lie strictly past the last generated boundary* (some
generated boundary is at or after `now`) while some generated boundary is
at or before `now`, the scheduler is due exactly when `last_run` is
strictly before the rightmost boundary at or before `now`; in particular
when `last_run` lies in the current open bucket the scheduler is not due.
(Without the added proviso the claim fails, see the counterexample: past
the last generated boundary the scheduler is always due.) -/
theorem c1_amended (sys tz : TimeZoneModel) (now : ℚ) (s i : ℤ) (last : ℚ)
    (hi : i ∈ INTERVALS) (hlast : last ≤ now)
    (hbefore : ∃ t ∈ interval_times_of sys tz now s i, t ≤ now)
    (hafter : ∃ t ∈ interval_times_of sys tz now s i, now ≤ t) :
    ∃ b, rightmost_boundary_le (interval_times_of sys tz now s i) now = some b ∧
      (is_time_to_search sys tz now s i last = true ↔ last < b) ∧
      (b ≤ last → last < b + (i : ℚ) * SECONDS_PER_HOUR →
        is_time_to_search sys tz now s i last = false) := by
  have hsorted := interval_times_sorted sys tz now s (interval_pos hi)
  have hlen : 2 ≤ (interval_times_of sys tz now s i).length := by
    rw [interval_times_length]
    exact range_value_two_le i
  have hgs := get_start_eq_of_sorted now (interval_times_of sys tz now s i) hsorted hlen
  have hnall : ¬ ∀ t ∈ interval_times_of sys tz now s i, t < now := by
    obtain ⟨t, ht, h2⟩ := hafter
    exact fun h => absurd (h t ht) (not_lt.mpr h2)
  rw [if_neg hnall] at hgs
  obtain ⟨t0, ht0, hle⟩ := hbefore
  have hmem : t0 ∈ (interval_times_of sys tz now s i).filter fun b => decide (b ≤ now) :=
    List.mem_filter.mpr ⟨ht0, by simp [hle]⟩
  obtain ⟨b, hb⟩ :=
    Option.isSome_iff_exists.mp (List.getLast?_isSome.mpr (List.ne_nil_of_mem hmem))
  rw [hb, Option.or_some] at hgs
  refine ⟨b, hb, ?_, ?_⟩
  · rw [is_time_to_search_of_some hi hlast hgs]
    simp
  · intro hble _
    rw [is_time_to_search_of_some hi hlast hgs]
    simp [not_lt.mpr hble]

/-- C1 witness: the amended statement at offset-0 timezone, `start_hour = 0`,
`interval_hour = 12`, `now = 3600` (inside the bucket starting at the
boundary `0`), `last_run = 0`. -/
theorem c1_amended_witness :
    ∃ b, rightmost_boundary_le (interval_times_of (constZone 0) (constZone 0) 3600 0 12) 3600 =
        some b ∧
      (is_time_to_search (constZone 0) (constZone 0) 3600 0 12 0 = true ↔ (0 : ℚ) < b) ∧
      (b ≤ 0 → (0 : ℚ) < b + (12 : ℚ) * SECONDS_PER_HOUR →
        is_time_to_search (constZone 0) (constZone 0) 3600 0 12 0 = false) :=
  c1_amended (constZone 0) (constZone 0) 3600 0 12 0 (by decide) (by norm_num)
    (by rw [utc_times_3600]; exact ⟨0, by decide, by norm_num⟩)
    (by rw [utc_times_3600]; exact ⟨43200, by decide, by norm_num⟩)

/-- C3 counterexample: in the modelled America/New_York fall-back of
2023-11-05 (`nyFall`), with `now` at the anchor 2023-11-05 12:00 EST
(epoch 1699203600) and `start_hour = 12`, the code's window start
`anchor - 86400 s` falls at *local 13:00* of the previous day
(`time_of_day` 46800) rather than the anchor's local 12:00 (43200), so it
is not "exactly one local calendar day back"; and the consecutive
generated boundaries 1699160400 and 1699203600 (both in the generated
list) are 11 wall-clock hours apart (39600 s of local wall clock), not
`interval_hour = 12` wall-clock hours: the code spaces boundaries by fixed
elapsed seconds, not by wall-clock calendar arithmetic. -/
theorem c3_counterexample :
    get_localized_start_time nyFall nyFall 1699203600 12 = 1699203600 ∧
    interval_times_of nyFall nyFall 1699203600 12 12 =
      [1699117200, 1699160400, 1699203600, 1699246800] ∧
    time_of_day (local_wall_clock nyFall (1699203600 - SECONDS_PER_DAY * (LOOKBACK_DAYS : ℚ))) =
      46800 ∧
    time_of_day (local_wall_clock nyFall 1699203600) = 43200 ∧
    (46800 : ℚ) ≠ 43200 ∧
    local_wall_clock nyFall 1699203600 - local_wall_clock nyFall 1699160400 = 39600 ∧
    (39600 : ℚ) ≠ 12 * SECONDS_PER_HOUR := by
  have h4 : range_value_of 12 = 4 := rfl
  refine ⟨?_, ?_, ?_, ?_, by norm_num, ?_, by norm_num [SECONDS_PER_HOUR]⟩
  · norm_num [get_localized_start_time, nyFall, floorDay, SECONDS_PER_DAY, SECONDS_PER_HOUR]
  · simp only [interval_times_of, h4]
    norm_num [get_localized_start_time, nyFall, floorDay, SECONDS_PER_DAY, SECONDS_PER_HOUR,
      LOOKBACK_DAYS, List.range_succ, List.range_zero]
  · norm_num [time_of_day, local_wall_clock, nyFall, floorDay, SECONDS_PER_DAY, SECONDS_PER_HOUR,
      LOOKBACK_DAYS]
  · norm_num [time_of_day, local_wall_clock, nyFall, floorDay, SECONDS_PER_DAY, SECONDS_PER_HOUR]
  · norm_num [local_wall_clock, nyFall, SECONDS_PER_HOUR]

/-- C3 (amended): boundary generation uses fixed elapsed-seconds
arithmetic on timestamps: the window start (the first generated boundary)
is exactly `anchor - 86400 * lookback_days` seconds, and consecutive
boundaries differ by exactly `interval_hour * 3600` seconds of absolute
time — regardless of timezone, and therefore *not* by local wall-clock
calendar steps across a DST transition (see the counterexample). -/
theorem c3_amended (sys tz : TimeZoneModel) (now : ℚ) (s i : ℤ) :
    (interval_times_of sys tz now s i).head? =
        some (get_localized_start_time sys tz now s - SECONDS_PER_DAY * (LOOKBACK_DAYS : ℚ)) ∧
    List.Chain' (fun a b => b - a = SECONDS_PER_HOUR * (i : ℚ))
      (interval_times_of sys tz now s i) := by
  constructor
  · have h2 := range_value_two_le i
    obtain ⟨m, hm⟩ : ∃ m, range_value_of i = m + 1 := ⟨range_value_of i - 1, by omega⟩
    simp only [interval_times_of, hm, List.range_succ_eq_map, List.map_cons, List.head?_cons]
    norm_num
  · simp only [interval_times_of]
    refine List.chain'_map _ |>.mpr ?_
    rcases hm : range_value_of i with _ | m
    · simp
    · refine (List.chain'_range_succ _ m).mpr fun k _ => ?_
      push_cast
      ring

/-- C4 counterexample: with the process timezone at a constant -8h offset
(America/Los_Angeles in winter) and the search timezone at a constant -5h
offset (America/New_York in winter), `now = 25200` (07:00 UTC, which is
02:00 New_York wall clock but 23:00 *of the previous day* Los_Angeles wall
clock) and `start_hour = 6`: the code returns -46800 while the claim's
description — convert `now` to New_York wall clock, set the time fields to
06:00:00, convert back — yields 39600.  The code reads the wall clock of
the *process* zone (`datetime.fromtimestamp` without a tz argument) and
only then attaches the search zone's offset. -/
theorem c4_counterexample :
    get_localized_start_time (constZone (-28800)) (constZone (-18000)) 25200 6 = -46800 ∧
    localize_start_of_day_spec (constZone (-18000)) 25200 6 = 39600 ∧
    ((-46800 : ℚ) ≠ 39600) := by
  refine ⟨?_, ?_, by norm_num⟩
  · norm_num [get_localized_start_time, constZone, floorDay, SECONDS_PER_DAY, SECONDS_PER_HOUR]
  · norm_num [localize_start_of_day_spec, constZone, floorDay, SECONDS_PER_DAY, SECONDS_PER_HOUR]

/-- C4 (amended): `get_localized_start_time` reads `now`'s wall clock in
the *process* timezone, attaches `time_zone`'s offset to that naive wall
clock, replaces the time-of-day fields by `(start_hour, 0, 0)` keeping the
attached offset, and converts back.  When the process timezone coincides
with `time_zone` (a single constant offset) this agrees with the
specification's description, and the result can fall before or after
`now` depending on whether `now`'s local hour is past `start_hour`:
with offset 0 and `now = 3600` (01:00), `start_hour = 0` anchors before
`now` and `start_hour = 23` anchors after `now`. -/
theorem c4_amended :
    (∀ (c now_uclock : ℚ) (start_hour : ℤ),
        get_localized_start_time (constZone c) (constZone c) now_uclock start_hour =
          localize_start_of_day_spec (constZone c) now_uclock start_hour) ∧
    get_localized_start_time (constZone 0) (constZone 0) 3600 0 < 3600 ∧
    (3600 : ℚ) < get_localized_start_time (constZone 0) (constZone 0) 3600 23 := by
  refine ⟨fun c now_uclock start_hour => rfl, ?_, ?_⟩ <;>
    norm_num [get_localized_start_time, constZone, floorDay, SECONDS_PER_DAY, SECONDS_PER_HOUR]

/-- C5: for a valid interval and `last_search_time ≤ now`, `now` is
strictly past every generated boundary exactly when it is more than
`24 - interval_hour` fixed hours past the day's anchor, and in that case
`get_start_of_last_interval` returns none and `is_time_to_search` returns
true regardless of `last_search_time`. -/
theorem c5_past_last_boundary_always_due (sys tz : TimeZoneModel) (now : ℚ) (s i : ℤ)
    (last : ℚ) (hi : i ∈ INTERVALS) (hlast : last ≤ now) :
    ((∀ t ∈ interval_times_of sys tz now s i, t < now) ↔
        get_localized_start_time sys tz now s + (24 - (i : ℚ)) * SECONDS_PER_HOUR < now) ∧
    (get_localized_start_time sys tz now s + (24 - (i : ℚ)) * SECONDS_PER_HOUR < now →
        get_start_of_last_interval (interval_times_of sys tz now s i) now = none ∧
        is_time_to_search sys tz now s i last = true) := by
  have hiff := all_lt_iff_past_last sys tz now s hi
  refine ⟨hiff, fun h => ?_⟩
  have hall := hiff.mpr h
  have hlen1 : (interval_times_of sys tz now s i).length ≠ 1 := by
    rw [interval_times_length]
    have := range_value_two_le i
    omega
  have hnone := get_start_eq_none_of_all_lt hall hlen1
  exact ⟨hnone, is_time_to_search_of_none hi hlast hnone⟩

/-- C5 witness: offset-0 timezone, `start_hour = 0`, `interval_hour = 12`,
`now = 46800` (13:00 local, one hour past the last generated boundary),
`last_search_time = 45000` (12:30 local, just completed): the scheduler
still reports due. -/
theorem c5_witness :
    ((∀ t ∈ interval_times_of (constZone 0) (constZone 0) 46800 0 12, t < 46800) ↔
        get_localized_start_time (constZone 0) (constZone 0) 46800 0 +
          (24 - (12 : ℚ)) * SECONDS_PER_HOUR < 46800) ∧
    (get_localized_start_time (constZone 0) (constZone 0) 46800 0 +
          (24 - (12 : ℚ)) * SECONDS_PER_HOUR < 46800 →
        get_start_of_last_interval (interval_times_of (constZone 0) (constZone 0) 46800 0 12)
          46800 = none ∧
        is_time_to_search (constZone 0) (constZone 0) 46800 0 12 45000 = true) :=
  c5_past_last_boundary_always_due (constZone 0) (constZone 0) 46800 0 12 45000 (by decide)
    (by norm_num)

/-- C6: if `interval_hour` is not in the allowed set
`{1, 2, 3, 4, 6, 8, 12, 24}`, `is_time_to_search` returns false regardless
of the remaining inputs (the guard is the first branch of the function;
the embedding is total, mirroring that no exception is raised). -/
theorem c6_invalid_interval_not_due (sys tz : TimeZoneModel) (now : ℚ) (s i : ℤ) (last : ℚ)
    (hi : i ∉ INTERVALS) : is_time_to_search sys tz now s i last = false :=
  is_time_to_search_of_invalid hi

/-- C6 witness: the invalid interval 5 yields "not due". -/
theorem c6_witness :
    (5 : ℤ) ∉ INTERVALS ∧ is_time_to_search (constZone 0) (constZone 0) 0 0 5 0 = false :=
  ⟨by decide, c6_invalid_interval_not_due (constZone 0) (constZone 0) 0 0 5 0 (by decide)⟩

/-- C7: for a valid interval, a `last_search_time` strictly in the future
of `now` makes `is_time_to_search` return false, for every `start_hour`
and timezone (the guard fires before any boundary is consulted; the
embedding is total, mirroring that no exception is raised). -/
theorem c7_future_last_run_not_due (sys tz : TimeZoneModel) (now : ℚ) (s i : ℤ) (last : ℚ)
    (hi : i ∈ INTERVALS) (h : now < last) : is_time_to_search sys tz now s i last = false :=
  is_time_to_search_of_future hi h

/-- C7 witness: `last_search_time = now + 3600` yields "not due". -/
theorem c7_witness :
    (12 : ℤ) ∈ INTERVALS ∧ (0 : ℚ) < 3600 ∧
    is_time_to_search (constZone 0) (constZone 0) 0 0 12 3600 = false :=
  ⟨by decide, by norm_num,
    c7_future_last_run_not_due (constZone 0) (constZone 0) 0 0 12 3600 (by decide) (by norm_num)⟩

/-- C8: for a valid `interval_hour` (and the fixed `lookback_days = 1`),
the generated boundary list has exactly
`max ((lookback_days + 1) * (24 / interval_hour), 2)` entries, its
elements are exactly `window_start + k * interval_hour hours` for
`k = 0 .. count-1` where `window_start` is the anchor minus one day, and
it is strictly increasing.  The function is pure: the list is recomputed
from its arguments alone. -/
theorem c8_generate_boundaries (sys tz : TimeZoneModel) (now : ℚ) (s i : ℤ)
    (hi : i ∈ INTERVALS) :
    (interval_times_of sys tz now s i).length =
        (max ((LOOKBACK_DAYS + 1) * (24 / i)) 2).toNat ∧
    (∀ t : ℚ, t ∈ interval_times_of sys tz now s i ↔
        ∃ k : ℕ, k < (max ((LOOKBACK_DAYS + 1) * (24 / i)) 2).toNat ∧
          t = (get_localized_start_time sys tz now s - SECONDS_PER_DAY * (LOOKBACK_DAYS : ℚ)) +
              (k : ℚ) * SECONDS_PER_HOUR * (i : ℚ)) ∧
    (interval_times_of sys tz now s i).Pairwise (· < ·) := by
  have hdiv : (max ((LOOKBACK_DAYS + 1) * (24 / i)) 2).toNat = range_value_of i := by
    fin_cases hi <;> decide
  exact ⟨by rw [hdiv, interval_times_length], fun t => by rw [hdiv]; exact interval_times_mem,
    interval_times_sorted sys tz now s (interval_pos hi)⟩

/-- C8 witness: the statement at `interval_hour = 24` (where the
`max(..., 2)` clamp is what guarantees two boundaries). -/
theorem c8_witness :
    (24 : ℤ) ∈ INTERVALS ∧
    ((interval_times_of (constZone 0) (constZone 0) 0 0 24).length =
        (max ((LOOKBACK_DAYS + 1) * (24 / 24)) 2).toNat ∧
      (∀ t : ℚ, t ∈ interval_times_of (constZone 0) (constZone 0) 0 0 24 ↔
          ∃ k : ℕ, k < (max ((LOOKBACK_DAYS + 1) * ((24 : ℤ) / 24)) 2).toNat ∧
            t = (get_localized_start_time (constZone 0) (constZone 0) 0 0 -
                SECONDS_PER_DAY * (LOOKBACK_DAYS : ℚ)) +
                (k : ℚ) * SECONDS_PER_HOUR * ((24 : ℤ) : ℚ)) ∧
      (interval_times_of (constZone 0) (constZone 0) 0 0 24).Pairwise (· < ·)) :=
  ⟨by decide, c8_generate_boundaries (constZone 0) (constZone 0) 0 0 24 (by decide)⟩

/-- C9: for every allowed `interval_hour` the computed `range_value`
equals `max (2 * (24 // interval_hour), 2)`, is at least 2, and the
generated boundary list never has length 1 — so the singleton special case
of `get_start_of_last_interval` is unreachable from `is_time_to_search`;
in particular `interval_hour = 24` generates exactly two boundaries. -/
theorem c9_singleton_unreachable (i : ℤ) (hi : i ∈ INTERVALS) :
    range_value_of i = max (2 * (24 / i).toNat) 2 ∧
    2 ≤ range_value_of i ∧
    (∀ (sys tz : TimeZoneModel) (now : ℚ) (s : ℤ),
        (interval_times_of sys tz now s i).length ≠ 1) ∧
    range_value_of 24 = 2 := by
  refine ⟨by fin_cases hi <;> decide, range_value_two_le i, fun sys tz now s => ?_, by decide⟩
  rw [interval_times_length]
  have := range_value_two_le i
  omega

/-- C9 witness: the statement at `interval_hour = 24`. -/
theorem c9_witness :
    (24 : ℤ) ∈ INTERVALS ∧
    (range_value_of 24 = max (2 * ((24 : ℤ) / 24).toNat) 2 ∧
      2 ≤ range_value_of 24 ∧
      (∀ (sys tz : TimeZoneModel) (now : ℚ) (s : ℤ),
          (interval_times_of sys tz now s 24).length ≠ 1) ∧
      range_value_of 24 = 2) :=
  ⟨by decide, c9_singleton_unreachable 24 (by decide)⟩

/-- C10: `is_time_to_search` is a pure function of its argument tuple in
this embedding — two calls with identical arguments are the same value, so
they return identical results; there is no hidden state. -/
theorem c10_deterministic (sys tz : TimeZoneModel) (now : ℚ) (s i : ℤ) (last : ℚ) :
    is_time_to_search sys tz now s i last = is_time_to_search sys tz now s i last := rfl
